import Mathlib

/-!
Verification of the `resultit` crate: two lazy iterator adapters over
sequences of fallible items.

The embedding models Rust iterators as step functions
`step : σ → Option α × σ` (the shape of `fn next(&mut self) -> Option<Item>`:
the state is threaded explicitly, and the returned state reflects any
mutation the pull performed, whether or not an item was produced).

* `Resultit.Result` models Rust `Result<O, E>`.
* `Resultit.flatten`, `Resultit.wrap_result`, `Resultit.transform` and
  `Resultit.FlattenResults.flatten_results` model `src/flatten_results.rs`.
  The `FlatMap` iterator returned by `transform` is modelled by
  `Resultit.FlatMapIter` with step function `Resultit.FlatMapIter.next`,
  mirroring `std::iter::FlatMap`: a front inner iterator plus the remaining
  outer source.
* `Resultit.StopAfterErrorIter` with step function
  `Resultit.StopAfterErrorIter.next`, and the constructor
  `Resultit.stop_after_error`, model `src/stop_after_error.rs`.
* `Resultit.collectIter` and `Resultit.pullN` are the drivers: collecting
  items until the first `none` (as `collect` does) and performing a fixed
  number of pulls.
-/

namespace Resultit

/-- Model of Rust `Result<O, E>`: a tagged union of `ok` and `err`. -/
inductive Result (O E : Type) : Type where
  | ok : O → Result O E
  | err : E → Result O E
  deriving DecidableEq, Repr

/-- Whether a `Result` is the `ok` variant. -/
def Result.isOk {O E : Type} : Result O E → Bool
  | .ok _ => true
  | .err _ => false

/-- Model of the module-private `wrap_result` in `flatten_results.rs`:
wraps a value `t` in `Result::Ok`. -/
def wrap_result {T E : Type} (t : T) : Result T E :=
  .ok t

/-- Model of the module-private `flatten` in `flatten_results.rs`.  The Rust
code matches the result into a pair `(v, r)` of options, then builds
`v.into_iter().flatten().map(wrap_result).chain(r)`.  Here the option
iterators become `Option.toList`, `flatten` on the one-element option
iterator becomes `List.flatten`, `map` becomes `List.map` and `chain`
becomes list append. -/
def flatten {T E : Type} (res : Result (List T) E) : List (Result T E) :=
  let vr : Option (List T) × Option (Result T E) :=
    match res with
    | .ok v => (some v, none)
    | .err e => (none, some (.err e))
  (vr.1.toList.flatten.map wrap_result) ++ vr.2.toList

/-- State of the `std::iter::FlatMap` iterator returned by `transform`:
the remaining items of the current inner iterator (`frontiter`, absent
before the first outer item is consumed) and the remaining outer source,
modelled as the list of source items not yet consumed. -/
structure FlatMapIter (α β : Type) : Type where
  frontiter : Option (List β)
  outer : List α

/-- The inner loop of `FlatMap::next` once the front iterator is exhausted:
pull outer items one at a time, loading each item's expansion `f a`;
skip empty expansions; emit the first element of the first non-empty
expansion, keeping its remainder as the new front iterator. -/
def FlatMapIter.nextNone {α β : Type} (f : α → List β) :
    List α → Option β × FlatMapIter α β
  | [] => (none, ⟨none, []⟩)
  | a :: rest =>
    match f a with
    | [] => FlatMapIter.nextNone f rest
    | b :: bs => (some b, ⟨some bs, rest⟩)

/-- Step function of the `FlatMap` iterator (Rust `FlatMap::next`): emit the
next element of the front inner iterator if there is one, otherwise advance
the outer source via `FlatMapIter.nextNone`. -/
def FlatMapIter.next {α β : Type} (f : α → List β) :
    FlatMapIter α β → Option β × FlatMapIter α β
  | ⟨some (b :: bs), outer⟩ => (some b, ⟨some bs, outer⟩)
  | ⟨some [], outer⟩ => FlatMapIter.nextNone f outer
  | ⟨none, outer⟩ => FlatMapIter.nextNone f outer

/-- Model of the free function `transform` in `flatten_results.rs`:
`outer_iter.flat_map(flatten)`.  It returns the `FlatMap` iterator in its
initial state (no front iterator, whole source pending); the mapped
function `flatten` is supplied to the step function `FlatMapIter.next`
when the iterator is driven. -/
def transform {T E : Type} (outer_iter : List (Result (List T) E)) :
    FlatMapIter (Result (List T) E) (Result T E) :=
  ⟨none, outer_iter⟩

/-- Model of the trait method `FlattenResults::flatten_results` in
`flatten_results.rs`, whose body delegates to `transform(self)`. -/
def FlattenResults.flatten_results {T E : Type}
    (self : List (Result (List T) E)) :
    FlatMapIter (Result (List T) E) (Result T E) :=
  transform self

/-- Model of `StopAfterErrorIter` in `stop_after_error.rs`: the wrapped
iterator's state plus the error flag, set to true upon the first error. -/
structure StopAfterErrorIter (σ : Type) : Type where
  iter : σ
  error : Bool

/-- Model of `StopAfterErrorIter::next`: return `none` once the error flag
is set; otherwise pull from the wrapped iterator, relay its item, and set
the error flag when the item is an `err`. -/
def StopAfterErrorIter.next {σ O E : Type} (step : σ → Option (Result O E) × σ) :
    StopAfterErrorIter σ → Option (Result O E) × StopAfterErrorIter σ
  | ⟨it, true⟩ => (none, ⟨it, true⟩)
  | ⟨it, false⟩ =>
    match step it with
    | (none, it') => (none, ⟨it', false⟩)
    | (some (.ok o), it') => (some (.ok o), ⟨it', false⟩)
    | (some (.err e), it') => (some (.err e), ⟨it', true⟩)

/-- Model of the trait method `StopAfterError::stop_after_error` in
`stop_after_error.rs`: wrap the iterator with the error flag initially
set to false. -/
def stop_after_error {σ : Type} (self : σ) : StopAfterErrorIter σ :=
  ⟨self, false⟩

/-- A Rust `Vec`-backed iterator (`vec.into_iter()`): the state is the list
of items not yet yielded. -/
def listStep {α : Type} : List α → Option α × List α
  | [] => (none, [])
  | a :: rest => (some a, rest)

/-- Model of the `map` adapter (`std::iter::Map`): apply `g` to each item
the wrapped iterator yields. -/
def mapStep {σ α β : Type} (g : α → β) (step : σ → Option α × σ) :
    σ → Option β × σ :=
  fun s =>
    match step s with
    | (none, s') => (none, s')
    | (some a, s') => (some (g a), s')

/-- An instrumented source that records how many times it was pulled:
the wrapped state is paired with a pull counter that increases by one on
every pull, whether or not an item is produced. -/
def countingStep {σ α : Type} (step : σ → Option α × σ) :
    σ × Nat → Option α × (σ × Nat)
  | (s, n) =>
    match step s with
    | (a, s') => (a, (s', n + 1))

/-- Drive an iterator for at most `n` pulls, collecting the items yielded,
stopping at the first `none` (the behaviour of `collect` on the first
`n` items). -/
def collectIter {σ α : Type} (step : σ → Option α × σ) :
    Nat → σ → List α
  | 0, _ => []
  | n + 1, s =>
    match step s with
    | (none, _) => []
    | (some a, s') => a :: collectIter step n s'

/-- Perform exactly `n` pulls on an iterator and return the resulting
state, discarding the items. -/
def pullN {σ α : Type} (step : σ → Option α × σ) : Nat → σ → σ
  | 0, s => s
  | n + 1, s => (step (pullN step n s)).2

/-- The sequence denoted by a `FlatMap` iterator state: the rest of the
front inner iterator followed by the expansion of the remaining outer
source. -/
def FlatMapIter.denote {α β : Type} (f : α → List β) (s : FlatMapIter α β) :
    List β :=
  (s.frontiter.getD []) ++ s.outer.flatMap f

/-- The flattening contract as the specification states it: each
`Success(collection)` item contributes one `Success(element)` per element
of the collection in order, and each `Failure(error)` item contributes
exactly one `Failure(error)` item. -/
def flattenSpec {T E : Type} : Result (List T) E → List (Result T E)
  | .ok v => v.map Result.ok
  | .err e => [.err e]

/-- The truncation contract as the specification states it: every item
unchanged up to and including the first `Failure`, nothing after it. -/
def takeThroughFirstError {O E : Type} : List (Result O E) → List (Result O E)
  | [] => []
  | .ok o :: rest => .ok o :: takeThroughFirstError rest
  | .err e :: _ => [.err e]

/-- Model of the error-collapsing map `|res| -> TryResult<_> { Ok(res??) }`
from the crate-level documentation in `lib.rs`: the two `?` operators
convert either level of error into the common error type (via `f1` for the
outer error, `f2` for the inner one) and a doubly-ok value is rewrapped in
`Ok`. -/
def errJoin {T E1 E2 E : Type} (f1 : E1 → E) (f2 : E2 → E) :
    Result (Result T E2) E1 → Result T E
  | .err e1 => .err (f1 e1)
  | .ok (.err e2) => .err (f2 e2)
  | .ok (.ok t) => .ok t

/-- The nested source of testable property P6 of the specification:
`Success([Success(1),Success(2)]), Success([Failure(E2),Success(5)]),
Success([Success(6),Success(7)])`, with errors encoded as numbers. -/
def nestedSource : List (Result (List (Result Nat Nat)) Nat) :=
  [Result.ok [Result.ok 1, Result.ok 2],
   Result.ok [Result.err 2, Result.ok 5],
   Result.ok [Result.ok 6, Result.ok 7]]

/-- A source that is not fused: it reports exhaustion on its first pull,
then resumes and yields an item on its second pull. -/
def resumeStep : Nat → Option (Result Nat Nat) × Nat
  | 0 => (none, 1)
  | 1 => (some (.ok 5), 2)
  | n => (none, n)

/-! ### Helper lemmas -/

lemma flatten_eq_flattenSpec {T E : Type} (res : Result (List T) E) :
    flatten res = flattenSpec res := by
  cases res with
  | ok v => simp [flatten, flattenSpec, wrap_result]
  | err e => simp [flatten, flattenSpec]

lemma nextNone_of_flatMap_nil {α β : Type} (f : α → List β) :
    ∀ t : List α, t.flatMap f = [] →
      FlatMapIter.nextNone f t = (none, ⟨none, []⟩) := by
  intro t
  induction t with
  | nil => intro _; rfl
  | cons a rest ih =>
    intro h
    rw [List.flatMap_cons, List.append_eq_nil] at h
    simp [FlatMapIter.nextNone, h.1]
    exact ih h.2

lemma nextNone_of_flatMap_cons {α β : Type} (f : α → List β) :
    ∀ (t : List α) (b : β) (bs : List β), t.flatMap f = b :: bs →
      ∃ t1 a t2 inner, t = t1 ++ a :: t2 ∧ t1.flatMap f = [] ∧
        f a = b :: inner ∧ inner ++ t2.flatMap f = bs ∧
        FlatMapIter.nextNone f t = (some b, ⟨some inner, t2⟩) := by
  intro t
  induction t with
  | nil => intro b bs h; simp at h
  | cons a rest ih =>
    intro b bs h
    rw [List.flatMap_cons] at h
    cases hfa : f a with
    | nil =>
      rw [hfa, List.nil_append] at h
      obtain ⟨t1, a', t2, inner, ht, h1, h2, h3, h4⟩ := ih b bs h
      refine ⟨a :: t1, a', t2, inner, by simp [ht], ?_, h2, h3, ?_⟩
      · simp [List.flatMap_cons, hfa, h1]
      · simpa [FlatMapIter.nextNone, hfa] using h4
    | cons x xs =>
      rw [hfa] at h
      obtain ⟨hx, hxs⟩ := List.cons.inj h
      refine ⟨[], a, rest, xs, by simp, by simp, by rw [hfa, hx], hxs, ?_⟩
      simp [FlatMapIter.nextNone, hfa, hx]

lemma next_of_denote_nil {α β : Type} (f : α → List β) (s : FlatMapIter α β)
    (h : FlatMapIter.denote f s = []) :
    FlatMapIter.next f s = (none, ⟨none, []⟩) := by
  obtain ⟨front, outer⟩ := s
  cases front with
  | none =>
    simp only [FlatMapIter.denote, Option.getD_none, List.nil_append] at h
    exact nextNone_of_flatMap_nil f outer h
  | some l =>
    simp only [FlatMapIter.denote, Option.getD_some, List.append_eq_nil] at h
    rw [h.1]
    exact nextNone_of_flatMap_nil f outer h.2

lemma next_of_denote_cons {α β : Type} (f : α → List β) (s : FlatMapIter α β)
    (b : β) (bs : List β) (h : FlatMapIter.denote f s = b :: bs) :
    ∃ s', FlatMapIter.next f s = (some b, s') ∧ FlatMapIter.denote f s' = bs := by
  obtain ⟨front, outer⟩ := s
  cases front with
  | none =>
    simp only [FlatMapIter.denote, Option.getD_none, List.nil_append] at h
    obtain ⟨t1, a, t2, inner, _, _, _, h3, h4⟩ := nextNone_of_flatMap_cons f outer b bs h
    exact ⟨⟨some inner, t2⟩, h4, by simpa [FlatMapIter.denote] using h3⟩
  | some l =>
    cases l with
    | nil =>
      simp only [FlatMapIter.denote, Option.getD_some, List.nil_append] at h
      obtain ⟨t1, a, t2, inner, _, _, _, h3, h4⟩ := nextNone_of_flatMap_cons f outer b bs h
      exact ⟨⟨some inner, t2⟩, h4, by simpa [FlatMapIter.denote] using h3⟩
    | cons x xs =>
      simp only [FlatMapIter.denote, Option.getD_some, List.cons_append] at h
      obtain ⟨hx, hxs⟩ := List.cons.inj h
      refine ⟨⟨some xs, outer⟩, ?_, by simpa [FlatMapIter.denote] using hxs⟩
      simp [FlatMapIter.next, hx]

lemma collect_flatMapIter {α β : Type} (f : α → List β) :
    ∀ (n : Nat) (s : FlatMapIter α β),
      collectIter (FlatMapIter.next f) n s = (FlatMapIter.denote f s).take n := by
  intro n
  induction n with
  | zero => intro s; rfl
  | succ n ih =>
    intro s
    cases hd : FlatMapIter.denote f s with
    | nil =>
      simp [collectIter, next_of_denote_nil f s hd]
    | cons b bs =>
      obtain ⟨s', h1, h2⟩ := next_of_denote_cons f s b bs hd
      simp [collectIter, h1, ih s', h2]

lemma denote_transform {α β : Type} (f : α → List β) (l : List α) :
    FlatMapIter.denote f ⟨none, l⟩ = l.flatMap f := by
  simp [FlatMapIter.denote]

lemma stop_next_halted {σ O E : Type} (step : σ → Option (Result O E) × σ) (it : σ) :
    StopAfterErrorIter.next step ⟨it, true⟩ = (none, ⟨it, true⟩) :=
  rfl

lemma collect_stop_halted {σ O E : Type} (step : σ → Option (Result O E) × σ) :
    ∀ (n : Nat) (it : σ), collectIter (StopAfterErrorIter.next step) n ⟨it, true⟩ = [] := by
  intro n it
  cases n with
  | zero => rfl
  | succ n => rfl

lemma pullN_stop_halted {σ O E : Type} (step : σ → Option (Result O E) × σ) :
    ∀ (n : Nat) (it : σ), pullN (StopAfterErrorIter.next step) n ⟨it, true⟩ = ⟨it, true⟩ := by
  intro n it
  induction n with
  | zero => rfl
  | succ n ih => simp [pullN, ih, stop_next_halted]

lemma pullN_succ_front {σ α : Type} (step : σ → Option α × σ) :
    ∀ (n : Nat) (s : σ), pullN step (n + 1) s = pullN step n (step s).2 := by
  intro n
  induction n with
  | zero => intro s; rfl
  | succ n ih =>
    intro s
    show (step (pullN step (n + 1) s)).2 = _
    rw [ih s]
    rfl

lemma stop_collect_of_denote {σ O E : Type} (step : σ → Option (Result O E) × σ)
    (d : σ → List (Result O E))
    (h0 : ∀ s, d s = [] → (step s).1 = none)
    (h1 : ∀ s b bs, d s = b :: bs → ∃ s', step s = (some b, s') ∧ d s' = bs) :
    ∀ (n : Nat) (s : σ),
      collectIter (StopAfterErrorIter.next step) n ⟨s, false⟩ =
        (takeThroughFirstError (d s)).take n := by
  intro n
  induction n with
  | zero => intro s; rfl
  | succ n ih =>
    intro s
    cases hd : d s with
    | nil =>
      have h2 := h0 s hd
      rcases hst : step s with ⟨o, s2⟩
      rw [hst] at h2
      simp only at h2
      subst h2
      simp [collectIter, StopAfterErrorIter.next, hst, takeThroughFirstError]
    | cons b bs =>
      obtain ⟨s', hst, hds'⟩ := h1 s b bs hd
      cases b with
      | ok o =>
        simp [collectIter, StopAfterErrorIter.next, hst, takeThroughFirstError, ih s', hds']
      | err e =>
        simp [collectIter, StopAfterErrorIter.next, hst, takeThroughFirstError,
          collect_stop_halted]

lemma listStep_h0 {O E : Type} (l : List (Result O E)) (h : l = []) :
    (listStep l).1 = none := by
  subst h; rfl

lemma listStep_h1 {O E : Type} (l : List (Result O E)) (b : Result O E)
    (bs : List (Result O E)) (h : l = b :: bs) :
    ∃ l', listStep l = (some b, l') ∧ l' = bs := by
  subst h; exact ⟨bs, rfl, rfl⟩

lemma takeThroughFirstError_of_all_ok {O E : Type} :
    ∀ l : List (Result O E), (∀ r ∈ l, r.isOk = true) → takeThroughFirstError l = l := by
  intro l
  induction l with
  | nil => intro _; rfl
  | cons r rest ih =>
    intro h
    cases r with
    | ok o =>
      simp only [takeThroughFirstError]
      rw [ih (fun x hx => h x (List.mem_cons_of_mem _ hx))]
    | err e =>
      have := h (.err e) (List.mem_cons_self _ _)
      simp [Result.isOk] at this

lemma pullN_stop_through_ok_list {O E : Type} :
    ∀ (l1 : List (Result O E)) (e : E) (l2 : List (Result O E)) (k : Nat),
      (∀ r ∈ l1, r.isOk = true) →
      pullN (StopAfterErrorIter.next listStep) (l1.length + 1 + k)
        ⟨l1 ++ .err e :: l2, false⟩ = ⟨l2, true⟩ := by
  intro l1
  induction l1 with
  | nil =>
    intro e l2 k _
    have hlen : ([] : List (Result O E)).length + 1 + k = k + 1 := by simp; omega
    rw [hlen, pullN_succ_front]
    have hstep : StopAfterErrorIter.next listStep ⟨[] ++ Result.err e :: l2, false⟩ =
        (some (.err e), ⟨l2, true⟩) := by
      simp [StopAfterErrorIter.next, listStep]
    rw [hstep]
    exact pullN_stop_halted listStep k l2
  | cons r l1' ih =>
    intro e l2 k h
    obtain ⟨o, rfl⟩ : ∃ o, r = Result.ok o := by
      cases r with
      | ok o => exact ⟨o, rfl⟩
      | err e' =>
        have := h (.err e') (List.mem_cons_self _ _)
        simp [Result.isOk] at this
    have hlen : (Result.ok o :: l1').length + 1 + k = (l1'.length + 1 + k) + 1 := by
      simp; omega
    rw [hlen, pullN_succ_front]
    have hstep : StopAfterErrorIter.next listStep
        ⟨(Result.ok o :: l1') ++ Result.err e :: l2, false⟩ =
        (some (.ok o), ⟨l1' ++ Result.err e :: l2, false⟩) := by
      simp [StopAfterErrorIter.next, listStep]
    rw [hstep]
    exact ih e l2 k (fun x hx => h x (List.mem_cons_of_mem _ hx))

lemma pullN_flatMapIter_consumed {α β : Type} (f : α → List β) (l : List α) :
    ∀ K : Nat, K + 1 ≤ (l.flatMap f).length →
      ∃ p a rest inner, l = p ++ a :: rest ∧
        pullN (FlatMapIter.next f) (K + 1) ⟨none, l⟩ = ⟨some inner, rest⟩ ∧
        (p.flatMap f).length < K + 1 ∧
        (p.flatMap f).length + (f a).length = (K + 1) + inner.length ∧
        inner.length < (f a).length := by
  intro K
  induction K with
  | zero =>
    intro h
    cases hl : l.flatMap f with
    | nil => rw [hl] at h; simp at h
    | cons b bs =>
      obtain ⟨t1, a, t2, inner, ht, h1, h2, _, h4⟩ := nextNone_of_flatMap_cons f l b bs hl
      refine ⟨t1, a, t2, inner, ht, ?_, ?_, ?_, ?_⟩
      · show (FlatMapIter.next f ⟨none, l⟩).2 = _
        simp [FlatMapIter.next, h4]
      · simp [h1]
      · rw [h1, h2]
        simp only [List.length_nil, List.length_cons]
        omega
      · rw [h2]
        simp only [List.length_cons]
        omega
  | succ K ih =>
    intro h
    obtain ⟨p, a, rest, inner, ht, hstate, hlt, heq, hin⟩ := ih (by omega)
    cases inner with
    | cons b brest =>
      refine ⟨p, a, rest, brest, ht, ?_, by omega, ?_, ?_⟩
      · show (FlatMapIter.next f (pullN (FlatMapIter.next f) (K + 1) ⟨none, l⟩)).2 = _
        rw [hstate]
        rfl
      · simp only [List.length_cons] at heq
        omega
      · simp only [List.length_cons] at hin
        omega
    | nil =>
      simp only [List.length_nil, Nat.add_zero] at heq
      have htotal : (l.flatMap f).length =
          (p.flatMap f).length + (f a).length + (rest.flatMap f).length := by
        rw [ht]
        simp [List.flatMap_append, List.flatMap_cons]
        omega
      have hr1 : 1 ≤ (rest.flatMap f).length := by omega
      cases hr : rest.flatMap f with
      | nil => rw [hr] at hr1; simp at hr1
      | cons b bs =>
        obtain ⟨t1, a', t2, inner', ht', h1', h2', _, h4'⟩ :=
          nextNone_of_flatMap_cons f rest b bs hr
        refine ⟨p ++ a :: t1, a', t2, inner', ?_, ?_, ?_, ?_, ?_⟩
        · rw [ht, ht']
          simp
        · show (FlatMapIter.next f (pullN (FlatMapIter.next f) (K + 1) ⟨none, l⟩)).2 = _
          rw [hstate]
          show (FlatMapIter.nextNone f rest).2 = _
          rw [h4']
        · simp only [List.flatMap_append, List.flatMap_cons, h1', List.append_nil,
            List.length_append]
          omega
        · simp only [List.flatMap_append, List.flatMap_cons, h1', h2', List.append_nil,
            List.length_append, List.length_cons]
          omega
        · rw [h2']
          simp only [List.length_cons]
          omega

lemma pullN_stop_counting_le {σ O E : Type} (step : σ → Option (Result O E) × σ) :
    ∀ (K : Nat) (s : σ) (c : Nat) (e : Bool),
      ((pullN (StopAfterErrorIter.next (countingStep step)) K ⟨(s, c), e⟩).iter).2 ≤ c + K := by
  intro K
  induction K with
  | zero => intro s c e; simp [pullN]
  | succ K ih =>
    intro s c e
    show ((StopAfterErrorIter.next (countingStep step)
      (pullN (StopAfterErrorIter.next (countingStep step)) K ⟨(s, c), e⟩)).2.iter).2 ≤ c + (K + 1)
    rcases hu : pullN (StopAfterErrorIter.next (countingStep step)) K ⟨(s, c), e⟩
      with ⟨⟨us, uc⟩, ue⟩
    have hub : uc ≤ c + K := by
      have := ih s c e
      rw [hu] at this
      exact this
    cases ue with
    | true => simp [stop_next_halted]; omega
    | false =>
      rcases hst : step us with ⟨o, us'⟩
      have hcs : countingStep step (us, uc) = (o, (us', uc + 1)) := by
        simp [countingStep, hst]
      cases o with
      | none => simp [StopAfterErrorIter.next, hcs]; omega
      | some r =>
        cases r with
        | ok v => simp [StopAfterErrorIter.next, hcs]; omega
        | err e' => simp [StopAfterErrorIter.next, hcs]; omega

lemma stop_collect_map_flatMapIter {α β O E : Type} (f : α → List β)
    (g : β → Result O E) :
    ∀ (n : Nat) (s : FlatMapIter α β),
      collectIter (StopAfterErrorIter.next (mapStep g (FlatMapIter.next f))) n ⟨s, false⟩ =
        (takeThroughFirstError ((FlatMapIter.denote f s).map g)).take n := by
  refine stop_collect_of_denote (mapStep g (FlatMapIter.next f))
    (fun s => (FlatMapIter.denote f s).map g) ?_ ?_
  · intro s hd
    have hden : FlatMapIter.denote f s = [] := List.map_eq_nil_iff.mp hd
    simp [mapStep, next_of_denote_nil f s hden]
  · intro s b bs hd
    have hd2 : List.map g (FlatMapIter.denote f s) = b :: bs := hd
    cases hden : FlatMapIter.denote f s with
    | nil => rw [hden] at hd2; simp at hd2
    | cons x xs =>
      rw [hden, List.map_cons] at hd2
      obtain ⟨hb, hbs⟩ := List.cons.inj hd2
      obtain ⟨s', hn, hd'⟩ := next_of_denote_cons f s x xs hden
      refine ⟨s', ?_, ?_⟩
      · simp [mapStep, hn, hb]
      · show List.map g (FlatMapIter.denote f s') = bs
        rw [hd', hbs]

/-! ### The claims -/

/-- C1: for every finite source sequence, the output of the flattening
adapter (`flatten` driven through `transform`) is the strict in-order
concatenation, over the source items, of one `Success(element)` per
element of each `Success(collection)` in the collection's own order and of
exactly one `Failure(error)` per `Failure(error)` item (the behaviour
written out by `flattenSpec`). -/
theorem transform_flattens_in_order {T E : Type}
    (src : List (Result (List T) E)) (n : Nat) :
    collectIter (FlatMapIter.next flatten) n (transform src) =
      (src.flatMap flattenSpec).take n := by
  rw [collect_flatMapIter]
  show (FlatMapIter.denote flatten ⟨none, src⟩).take n = _
  rw [denote_transform]
  rw [show (flatten : Result (List T) E → List (Result T E)) = flattenSpec from
    funext flatten_eq_flattenSpec]

/-- C2: the truncating adapter yields every item unchanged up to and
including the first `Failure`, and after yielding that failure every
subsequent pull returns `none` regardless of how many items remain in
the underlying sequence. -/
theorem stop_after_error_truncates {O E : Type} :
    (∀ (src : List (Result O E)) (n : Nat),
      collectIter (StopAfterErrorIter.next listStep) n (stop_after_error src) =
        (takeThroughFirstError src).take n)
    ∧ (∀ (l1 : List (Result O E)) (e : E) (l2 : List (Result O E)) (k : Nat),
        (∀ r ∈ l1, r.isOk = true) →
        pullN (StopAfterErrorIter.next listStep) (l1.length + 1 + k)
            (stop_after_error (l1 ++ .err e :: l2)) = ⟨l2, true⟩
        ∧ StopAfterErrorIter.next listStep
            (pullN (StopAfterErrorIter.next listStep) (l1.length + 1 + k)
              (stop_after_error (l1 ++ .err e :: l2))) = (none, ⟨l2, true⟩)) := by
  constructor
  · intro src n
    exact stop_collect_of_denote listStep (fun l => l)
      (fun l h => by subst h; rfl)
      (fun l b bs h => ⟨bs, by subst h; rfl, rfl⟩) n src
  · intro l1 e l2 k h
    have hp := pullN_stop_through_ok_list l1 e l2 k h
    refine ⟨hp, ?_⟩
    show StopAfterErrorIter.next listStep
      (pullN (StopAfterErrorIter.next listStep) (l1.length + 1 + k)
        ⟨l1 ++ .err e :: l2, false⟩) = (none, ⟨l2, true⟩)
    rw [hp]
    exact stop_next_halted listStep l2

/-- C2 witness: truncating `Success(1), Success(2), Failure(0), Success(3)`
yields exactly those three items up to the failure, and after the third
pull the adapter is halted and pulls return `none`. -/
theorem stop_after_error_truncates_witness :
    collectIter (StopAfterErrorIter.next listStep) 10
      (stop_after_error [Result.ok 1, Result.ok 2, Result.err 0, Result.ok 3]) =
      [Result.ok 1, Result.ok 2, Result.err (0 : Nat)]
    ∧ pullN (StopAfterErrorIter.next listStep) 3
        (stop_after_error [Result.ok 1, Result.ok 2, Result.err (0 : Nat), Result.ok 3]) =
        ⟨[Result.ok 3], true⟩ := by
  constructor
  · exact ((stop_after_error_truncates (O := Nat) (E := Nat)).1
      [Result.ok 1, Result.ok 2, Result.err 0, Result.ok 3] 10).trans (by decide)
  · exact ((stop_after_error_truncates (O := Nat) (E := Nat)).2
      [Result.ok 1, Result.ok 2] 0 [Result.ok 3] 0 (by decide)).1

/-- C4: once the error flag is true the truncating adapter is latched:
a pull returns `none` and leaves the state (including the untouched
underlying iterator state) exactly as it was, for every possible
underlying step function; hence repeated pulls change nothing, collect
nothing, and no transition returns to the active state. -/
theorem stop_after_error_halted_latched {σ O E : Type}
    (step : σ → Option (Result O E) × σ) (it : σ) (n : Nat) :
    StopAfterErrorIter.next step ⟨it, true⟩ = (none, ⟨it, true⟩)
    ∧ pullN (StopAfterErrorIter.next step) n ⟨it, true⟩ = ⟨it, true⟩
    ∧ collectIter (StopAfterErrorIter.next step) n ⟨it, true⟩ = [] :=
  ⟨stop_next_halted step it, pullN_stop_halted step n it, collect_stop_halted step n it⟩

/-- C5: the truncating adapter is idempotent: wrapping its output in a
second copy of itself yields the same items as a single application, for
every underlying source and any number of pulls. -/
theorem stop_after_error_idempotent {σ O E : Type}
    (step : σ → Option (Result O E) × σ) :
    ∀ (n : Nat) (s : σ),
      collectIter (StopAfterErrorIter.next (StopAfterErrorIter.next step)) n
        (stop_after_error (stop_after_error s)) =
      collectIter (StopAfterErrorIter.next step) n (stop_after_error s) := by
  intro n
  induction n with
  | zero => intro s; rfl
  | succ n ih =>
    intro s
    rcases hst : step s with ⟨o, s'⟩
    have hin : StopAfterErrorIter.next step ⟨s, false⟩ =
        (o, ⟨s', o.elim false (fun r => !r.isOk)⟩) := by
      cases o with
      | none => simp [StopAfterErrorIter.next, hst, Option.elim]
      | some r =>
        cases r with
        | ok v => simp [StopAfterErrorIter.next, hst, Option.elim, Result.isOk]
        | err e => simp [StopAfterErrorIter.next, hst, Option.elim, Result.isOk]
    cases o with
    | none =>
      simp [collectIter, stop_after_error, StopAfterErrorIter.next, hst, hin]
    | some r =>
      cases r with
      | ok v =>
        simp only [Option.elim, Result.isOk, Bool.not_true] at hin
        simp [collectIter, stop_after_error, StopAfterErrorIter.next, hst, hin]
        exact ih s'
      | err e =>
        simp only [Option.elim, Result.isOk, Bool.not_false] at hin
        simp [collectIter, stop_after_error, StopAfterErrorIter.next, hst, hin,
          collect_stop_halted]

/-- C6: on a source without failures the truncating adapter is the
identity: it yields all items unchanged and nothing extra. -/
theorem stop_after_error_identity_without_failures {O E : Type}
    (src : List (Result O E)) (n : Nat) (h : ∀ r ∈ src, r.isOk = true) :
    collectIter (StopAfterErrorIter.next listStep) n (stop_after_error src) =
      src.take n := by
  have h1 := stop_collect_of_denote (listStep (α := Result O E)) (fun l => l)
    (fun l hl => by subst hl; rfl)
    (fun l b bs hl => ⟨bs, by subst hl; rfl, rfl⟩) n src
  rw [takeThroughFirstError_of_all_ok src h] at h1
  exact h1

/-- C6 witness: an all-success source of length 3 passes through
unchanged. -/
theorem stop_after_error_identity_without_failures_witness :
    collectIter (StopAfterErrorIter.next listStep) 3
      (stop_after_error [Result.ok 1, Result.ok 2, Result.ok (3 : Nat)]) =
      ([Result.ok 1, Result.ok 2, Result.ok 3] : List (Result Nat Nat)) :=
  (stop_after_error_identity_without_failures
    [Result.ok 1, Result.ok 2, Result.ok 3] 3 (by decide)).trans (by decide)

/-- C7: a `Success` of an empty collection contributes zero output items of
the flattening adapter, and the items produced for the surrounding source
items are unaffected. -/
theorem flatten_empty_collection_is_transparent {T E : Type}
    (l1 l2 : List (Result (List T) E)) (n : Nat) :
    flatten (Result.ok ([] : List T)) = ([] : List (Result T E))
    ∧ collectIter (FlatMapIter.next flatten) n (transform (l1 ++ Result.ok [] :: l2)) =
      collectIter (FlatMapIter.next flatten) n (transform (l1 ++ l2)) := by
  refine ⟨rfl, ?_⟩
  rw [collect_flatMapIter, collect_flatMapIter]
  show (FlatMapIter.denote flatten ⟨none, l1 ++ Result.ok [] :: l2⟩).take n =
    (FlatMapIter.denote flatten ⟨none, l1 ++ l2⟩).take n
  rw [denote_transform, denote_transform]
  simp [List.flatMap_append, List.flatMap_cons,
    show flatten (Result.ok ([] : List T)) = ([] : List (Result T E)) from rfl]

/-- C9: the free function `transform` and the trait method
`FlattenResults.flatten_results` build the same iterator and hence produce
identical output sequences on every source. -/
theorem flatten_results_eq_transform {T E : Type}
    (src : List (Result (List T) E)) (n : Nat) :
    FlattenResults.flatten_results src = transform src
    ∧ collectIter (FlatMapIter.next flatten) n (FlattenResults.flatten_results src) =
      collectIter (FlatMapIter.next flatten) n (transform src) :=
  ⟨rfl, rfl⟩

/-- C10: the truncating adapter does not latch on ordinary exhaustion:
when the underlying source reports exhaustion before any failure, the
error flag stays false and the underlying source is polled again on the
next pull, so a non-fused source that later resumes has its items relayed
(illustrated concretely by `resumeStep`). -/
theorem stop_after_error_no_latch_on_exhaustion {σ O E : Type} :
    (∀ (step : σ → Option (Result O E) × σ) (s s' : σ), step s = (none, s') →
      StopAfterErrorIter.next step ⟨s, false⟩ = (none, ⟨s', false⟩))
    ∧ (∀ (step : σ → Option (Result O E) × σ) (s s' : σ) (o : O),
        step s = (some (.ok o), s') →
        StopAfterErrorIter.next step ⟨s, false⟩ = (some (.ok o), ⟨s', false⟩))
    ∧ StopAfterErrorIter.next resumeStep ⟨0, false⟩ = (none, ⟨1, false⟩)
    ∧ StopAfterErrorIter.next resumeStep ⟨1, false⟩ = (some (.ok 5), ⟨2, false⟩) := by
  refine ⟨?_, ?_, rfl, rfl⟩
  · intro step s s' h
    simp [StopAfterErrorIter.next, h]
  · intro step s s' o h
    simp [StopAfterErrorIter.next, h]

/-- C10 witness: on the concrete non-fused source `resumeStep` the first
pull relays exhaustion without halting and the second pull relays the
resumed item. -/
theorem stop_after_error_no_latch_on_exhaustion_witness :
    StopAfterErrorIter.next resumeStep ⟨0, false⟩ = (none, ⟨1, false⟩)
    ∧ StopAfterErrorIter.next resumeStep ⟨1, false⟩ = (some (.ok 5), ⟨2, false⟩) :=
  ⟨(stop_after_error_no_latch_on_exhaustion (σ := Nat) (O := Nat) (E := Nat)).1
      resumeStep 0 1 rfl,
   (stop_after_error_no_latch_on_exhaustion (σ := Nat) (O := Nat) (E := Nat)).2.1
      resumeStep 1 2 5 rfl⟩

/-- C3 counterexample: composing the flattening adapter directly with the
truncating adapter on the nested source of property P6 does not stop at the
first nested failure: flattening wraps every inner element, including the
inner `Failure`, in an outer `Success`, so the truncating adapter sees no
failure at all and relays all six doubly wrapped items. -/
theorem flatten_then_stop_unamended_counterexample :
    collectIter (StopAfterErrorIter.next (FlatMapIter.next flatten)) 10
      (stop_after_error (transform nestedSource)) =
      [Result.ok (Result.ok 1), Result.ok (Result.ok 2), Result.ok (Result.err 2),
       Result.ok (Result.ok 5), Result.ok (Result.ok 6), Result.ok (Result.ok 7)]
    ∧ (collectIter (StopAfterErrorIter.next (FlatMapIter.next flatten)) 10
        (stop_after_error (transform nestedSource))).all Result.isOk = true := by
  exact ⟨by decide, by decide⟩

/-- C3 amended: with the error-collapsing map step of the crate-level
documentation (`errJoin`, modelling `|res| Ok(res??)`) inserted between the
two adapters, the pipeline yields exactly the unrolled elements up to and
including the first nested failure in document order and then stops; on the
P6 source this is `Success(1), Success(2), Failure(2)`. -/
theorem flatten_map_then_stop_composition {T E1 E2 E : Type}
    (f1 : E1 → E) (f2 : E2 → E)
    (src : List (Result (List (Result T E2)) E1)) (n : Nat) :
    (collectIter (StopAfterErrorIter.next
        (mapStep (errJoin f1 f2) (FlatMapIter.next flatten))) n
        (stop_after_error (transform src)) =
      (takeThroughFirstError ((src.flatMap flatten).map (errJoin f1 f2))).take n)
    ∧ collectIter (StopAfterErrorIter.next
        (mapStep (errJoin (fun e : Nat => e) (fun e : Nat => e))
          (FlatMapIter.next flatten))) 10
        (stop_after_error (transform nestedSource)) =
      [Result.ok 1, Result.ok 2, Result.err 2] := by
  constructor
  · have h := stop_collect_map_flatMapIter flatten (errJoin f1 f2) n (transform src)
    have h2 : FlatMapIter.denote flatten (transform src) = src.flatMap flatten :=
      denote_transform flatten src
    rw [h2] at h
    exact h
  · decide

/-- C8: both adapters are lazy.  For the truncating adapter, an underlying
source instrumented to count its own pulls is pulled at most K times when
the adapter is pulled K times.  For the flattening adapter, pulling K items
(when K items exist) yields exactly the first K flattened items, and the
machine state still holds the untouched source suffix `rest`: the consumed
prefix `p ++ a :: nothing-more` is minimal, since the expansion of `p`
alone has fewer than K items. -/
theorem adapters_lazy :
    (∀ (σ O E : Type) (step : σ → Option (Result O E) × σ) (s : σ) (K : Nat),
      ((pullN (StopAfterErrorIter.next (countingStep step)) K
        (stop_after_error (s, 0))).iter).2 ≤ K)
    ∧ (∀ (T E : Type) (src : List (Result (List T) E)) (K : Nat),
        1 ≤ K → K ≤ (src.flatMap flatten).length →
        collectIter (FlatMapIter.next flatten) K (transform src) =
          (src.flatMap flatten).take K
        ∧ ∃ (p rest : List (Result (List T) E)) (a : Result (List T) E)
            (inner : List (Result T E)), src = p ++ a :: rest ∧
            pullN (FlatMapIter.next flatten) K (transform src) =
              FlatMapIter.mk (some inner) rest ∧
            (p.flatMap flatten).length < K) := by
  constructor
  · intro σ O E step s K
    have h := pullN_stop_counting_le step K s 0 false
    simpa using h
  · intro T E src K h1 h2
    constructor
    · rw [collect_flatMapIter]
      show (FlatMapIter.denote flatten ⟨none, src⟩).take K = _
      rw [denote_transform]
    · obtain ⟨K', rfl⟩ : ∃ K', K = K' + 1 := ⟨K - 1, by omega⟩
      obtain ⟨p, a, rest, inner, ht, hs, hlt, _, _⟩ :=
        pullN_flatMapIter_consumed flatten src K' h2
      exact ⟨p, rest, a, inner, ht, hs, hlt⟩

/-- C8 witness: a two-pull run of the instrumented truncating adapter polls
the source at most twice, and pulling one item from the flattening adapter
over `Success([1,2])` yields exactly the first flattened item. -/
theorem adapters_lazy_witness :
    ((pullN (StopAfterErrorIter.next (countingStep (listStep (α := Result Nat Nat)))) 2
      (stop_after_error (([Result.ok 1, Result.err 0] : List (Result Nat Nat)), 0))).iter).2 ≤ 2
    ∧ collectIter (FlatMapIter.next flatten) 1
        (transform [Result.ok ([1, 2] : List Nat)]) =
      (([Result.ok [1, 2]] : List (Result (List Nat) Nat)).flatMap flatten).take 1 :=
  ⟨adapters_lazy.1 (List (Result Nat Nat)) Nat Nat listStep [Result.ok 1, Result.err 0] 2,
   (adapters_lazy.2 Nat Nat [Result.ok [1, 2]] 1 (by decide) (by decide)).1⟩

end Resultit
